import Mathlib

/-!
# nodeLiveDnsUpdater: a shallow embedding of `app.js`

The program keeps the A records of a LiveDNS zone pointed at the machine's
public IP.  This file embeds the decision logic of `app.js` (`fixHost`,
`restoreRequiredHosts`, `LiveDnsClient.getZonesAsync`,
`LiveDnsClient.upsertRecordsAsync`, `IPHandler.getPreviousIPAsync`,
`IPHandler.storeIPAsync`, `main`) and proves properties of it.

Modelling conventions
* JavaScript strings are Lean `String`s; `===` on strings is `=`/`==`.
* `await`ed calls are sequential: an asynchronous function is a function from
  the world before the call to its outcome and the world after it.
* A raised exception (rejected promise) is `Except.error`; the world is kept.
* The SOAP service, the record file and the logger are the only effects.
* `parseConfig()` and `getCurrentIPAsync()` are inputs of `main`: the parsed
  configuration and the current IP string.  `new Date()` is an input too.
* A TTL is a natural number; a host, a type, an IP are strings.
-/

namespace LiveDns

/-! ## JavaScript string helpers -/

/-- `String.prototype.replace(pat, rep)` with a string pattern and a replacement
without `$` patterns, on characters: only the first occurrence of `pat` is
replaced (an empty pattern matches at index 0). -/
def replaceFirst (pat rep : List Char) : List Char → List Char
  | [] => if pat = [] then rep else []
  | c :: cs =>
    if pat.isPrefixOf (c :: cs) then rep ++ (c :: cs).drop pat.length
    else c :: replaceFirst pat rep cs

/-- `s.replace(pat, rep)` for a string pattern `pat`. -/
def jsReplace (s pat rep : String) : String :=
  ⟨replaceFirst pat.data rep.data s.data⟩

/-- Whether `pat` occurs in the character list (`String.prototype.includes`). -/
def occursIn (pat : List Char) : List Char → Bool
  | [] => pat.isPrefixOf []
  | c :: cs => pat.isPrefixOf (c :: cs) || occursIn pat cs

/-- `s.includes(pat)`. -/
def jsIncludes (s pat : String) : Bool :=
  occursIn pat.data s.data

/-- `Array.prototype.findIndex`: the index of the first element satisfying `p`,
or `-1`. -/
def findIndex {α : Type} (p : α → Bool) : List α → Int
  | [] => -1
  | a :: as => if p a then 0 else
    match findIndex p as with
    | Int.negSucc _ => -1
    | Int.ofNat i => Int.ofNat (i + 1)

/-! ## Data model -/

/-- A record of the working list: `{ host, type, data, ttl }`. -/
structure ZoneRecord where
  host : String
  type : String
  data : String
  ttl : Nat
  deriving DecidableEq, Repr

/-- A `ZoneRecord` element of the SOAP answer: `{ Host, Type, Data, TTL }`
(`Typ` is the `Type` property, a reserved word here). -/
structure RawRecord where
  Host : String
  Typ : String
  Data : String
  TTL : Nat
  deriving DecidableEq, Repr

/-! ## `fixHost` and `restoreRequiredHosts` -/

/-- `fixHost(zone)`: four successive `replace` calls on `zone.host`. -/
def fixHost (zone : ZoneRecord) : ZoneRecord :=
  let zone := { zone with host := jsReplace zone.host ".krapivin.co.il." "" }
  let zone := { zone with host := jsReplace zone.host ".krapivin.co.il" "" }
  let zone := { zone with host := jsReplace zone.host "krapivin.co.il." "" }
  let zone := { zone with host := jsReplace zone.host "krapivin.co.il" "" }
  zone

/-- `restoreRequiredHosts(zones, requiredHosts, curIP)`: the `filter` is
evaluated completely against the given `zones`, then `forEach` pushes one
record per surviving host onto `zones`, which is returned. -/
def restoreRequiredHosts (zones : List ZoneRecord) (requiredHosts : List String)
    (curIP : String) : List ZoneRecord :=
  let missing := requiredHosts.filter
    (fun x => findIndex (fun zone : ZoneRecord => zone.host == x) zones == -1)
  missing.foldl
    (fun zones host =>
      zones ++ [{ host := host, type := "Host (A)", data := curIP, ttl := 14400 }])
    zones

/-! ## Effects: the SOAP service, the record file, the log -/

/-- A raised exception (a rejected promise); only its text is kept. -/
abbrev Fault := String

/-- The credentials object `this.cred`. -/
structure Cred where
  UserName : String
  Password : String
  DomainName : String
  deriving DecidableEq, Repr

/-- A call made on the SOAP client, with its argument object. -/
inductive Call where
  | GetZoneRecords (cred : Cred)
  | DeleteARecord (HostName : String) (cred : Cred)
  | NewARecord (IPAddress : String) (TTL : Nat) (HostName : String) (cred : Cred)
  deriving DecidableEq, Repr

/-- The lines written through `log`, by call site. -/
inductive LogEntry where
  | warnCouldNotBeRemoved (name : String)
  | infoSuccessfullyRemoved (name : String)
  | infoSuccessfullyCreated (zone : ZoneRecord)
  | errorNotCreated (zone : ZoneRecord)
  | errorFailedUpdate (ex : Fault)
  | error (ex : Fault)
  | infoIpChanged (previous : Option String) (updateTime : String) (curIP : String)
  | warnFailedToStore
  | infoIpDidNotChange (curIP : String)
  deriving DecidableEq, Repr

/-- The state of the file at `recordPath`: missing, present but not readable as
JSON (`readFile` or `JSON.parse` raises `ex`), or holding an object whose `ip`
property is a string (`some`) or anything else (`none`). -/
inductive RecordFile where
  | absent
  | unparseable (ex : Fault)
  | record (ip : Option String) (updateTime : String)
  deriving DecidableEq, Repr

/-- The object returned by `getPreviousIPAsync`. -/
structure PreviousRecord where
  ip : Option String
  updateTime : String
  deriving DecidableEq, Repr

/-- The behaviour of the SOAP endpoint over a state `σ` of its own: building
the client from the WSDL, and the three operations.  An operation either
raises or returns; `DeleteARecord` and `NewARecord` return the value of the
`DeleteARecordResult` / `NewARecordResult` property of their answer, and
`GetZoneRecords` the `ZoneRecord` array of its answer (an answer without the
property path counts as a raise, which is where the property access raises). -/
structure Soap (σ : Type) where
  createClient : σ → Except Fault Unit × σ
  GetZoneRecords : Cred → σ → Except Fault (List RawRecord) × σ
  DeleteARecord : String → Cred → σ → Except Fault String × σ
  NewARecord : String → Nat → String → Cred → σ → Except Fault String × σ

/-- Everything a run can read or change outside its own variables. -/
structure World (σ : Type) where
  /-- State of the remote service. -/
  remote : σ
  /-- Calls made on the SOAP client so far, oldest first. -/
  calls : List Call
  /-- The record file. -/
  file : RecordFile
  /-- Whether `fs.remove` of the record file raises. -/
  removeFault : Option Fault
  /-- Whether `fs.writeFile` of the record file raises. -/
  writeFault : Option Fault
  /-- Arguments of the `storeIPAsync` calls so far, oldest first. -/
  stores : List String
  /-- Log lines so far, oldest first. -/
  log : List LogEntry

/-- The IP record held on disk, if the file holds one. -/
def World.persisted {σ : Type} (w : World σ) : Option (Option String × String) :=
  match w.file with
  | .record ip t => some (ip, t)
  | _ => none

/-! ## `LiveDnsClient` -/

/-- The fields of a `LiveDnsClient` object; `client` tells whether `this.client`
is set. -/
structure LiveDnsClient where
  username : String
  password : String
  domain : String
  cred : Cred
  client : Bool
  deriving DecidableEq, Repr

/-- The `constructor(username, password, domain)`. -/
def LiveDnsClient.new (username password domain : String) : LiveDnsClient :=
  { username := username, password := password, domain := domain,
    cred := { UserName := username, Password := password, DomainName := domain },
    client := false }

/-- `getLiveDnsClientAsync()`: creates the SOAP client once and caches it. -/
def LiveDnsClient.getLiveDnsClientAsync {σ : Type} (S : Soap σ) (self : LiveDnsClient)
    (w : World σ) : Except Fault Unit × LiveDnsClient × World σ :=
  if !self.client then
    match S.createClient w.remote with
    | (.error ex, r) => (.error ex, self, { w with remote := r })
    | (.ok _, r) => (.ok (), { self with client := true }, { w with remote := r })
  else (.ok (), self, w)

/-- The name shown in the removal log lines. -/
def displayName (zone : ZoneRecord) : String :=
  if zone.host == "" then "krapivin.co.il" else zone.host

/-- The `try` block of the loop body of `upsertRecordsAsync`, for one record. -/
def LiveDnsClient.upsertTry {σ : Type} (S : Soap σ) (self : LiveDnsClient) (curIP : String)
    (zone : ZoneRecord) (w : World σ) : Except Fault Unit × World σ :=
  let w := { w with calls := w.calls ++ [Call.DeleteARecord zone.host self.cred] }
  match S.DeleteARecord zone.host self.cred w.remote with
  | (.error ex, r) => (.error ex, { w with remote := r })
  | (.ok removeResult, r) =>
    let w := { w with remote := r }
    let w := { w with log := w.log ++
      [if removeResult == "A Record does not exists" then
        LogEntry.warnCouldNotBeRemoved (displayName zone)
      else
        LogEntry.infoSuccessfullyRemoved (displayName zone)] }
    let w := { w with calls := w.calls ++ [Call.NewARecord curIP zone.ttl zone.host self.cred] }
    match S.NewARecord curIP zone.ttl zone.host self.cred w.remote with
    | (.error ex, r) => (.error ex, { w with remote := r })
    | (.ok createResult, r) =>
      let w := { w with remote := r }
      (.ok (), { w with log := w.log ++
        [if createResult == "1" then
          LogEntry.infoSuccessfullyCreated zone
        else
          LogEntry.errorNotCreated zone] })

/-- One iteration of the loop of `upsertRecordsAsync`: the `try` block and its
`catch`, which logs and goes on. -/
def LiveDnsClient.upsertStep {σ : Type} (S : Soap σ) (self : LiveDnsClient) (curIP : String)
    (w : World σ) (zone : ZoneRecord) : World σ :=
  match self.upsertTry S curIP zone w with
  | (.ok _, w) => w
  | (.error ex, w) => { w with log := w.log ++ [LogEntry.errorFailedUpdate ex] }

/-- `upsertRecordsAsync(zones, curIP)`. -/
def LiveDnsClient.upsertRecordsAsync {σ : Type} (S : Soap σ) (self : LiveDnsClient)
    (zones : List ZoneRecord) (curIP : String) (w : World σ) :
    Except Fault Unit × LiveDnsClient × World σ :=
  match self.getLiveDnsClientAsync S w with
  | (.error ex, self, w) => (.error ex, self, w)
  | (.ok _, self, w) => (.ok (), self, zones.foldl (self.upsertStep S curIP) w)

/-- `getZonesAsync()`. -/
def LiveDnsClient.getZonesAsync {σ : Type} (S : Soap σ) (self : LiveDnsClient)
    (w : World σ) : Except Fault (List ZoneRecord) × LiveDnsClient × World σ :=
  match self.getLiveDnsClientAsync S w with
  | (.error ex, self, w) => (.error ex, self, w)
  | (.ok _, self, w) =>
    let w := { w with calls := w.calls ++ [Call.GetZoneRecords self.cred] }
    match S.GetZoneRecords self.cred w.remote with
    | (.error ex, r) => (.error ex, self, { w with remote := r })
    | (.ok zoneRecord, r) =>
      (.ok ((zoneRecord.filter (fun x => x.Typ != "Name Server (NS)")).map
              (fun x => { host := x.Host, type := x.Typ, data := x.Data, ttl := x.TTL })),
        self, { w with remote := r })

/-! ## `IPHandler` -/

/-- `getPreviousIPAsync()`; `now` is the value of `new Date()`. -/
def getPreviousIPAsync {σ : Type} (now : String) (w : World σ) :
    Except Fault PreviousRecord × World σ :=
  match w.file with
  | .record ip updateTime => (.ok { ip := ip, updateTime := updateTime }, w)
  | .unparseable ex =>
    let w := { w with log := w.log ++ [LogEntry.error ex] }
    match w.removeFault with
    | some ex => (.error ex, w)
    | none => (.ok { ip := some "127.0.0.1", updateTime := now }, { w with file := .absent })
  | .absent => (.ok { ip := some "127.0.0.1", updateTime := now }, w)

/-- `storeIPAsync(ip)`; `now` is the value of `new Date().toISOString()`. -/
def storeIPAsync {σ : Type} (ip : String) (now : String) (w : World σ) : Bool × World σ :=
  let w := { w with stores := w.stores ++ [ip] }
  match w.writeFault with
  | none => (true, { w with file := .record (some ip) now })
  | some ex => (false, { w with log := w.log ++ [LogEntry.error ex] })

/-! ## `main` -/

/-- The object returned by `parseConfig`. -/
structure Config where
  username : String
  password : String
  domain : String
  requiredHosts : List String
  deriving DecidableEq, Repr

/-- `main()`, from the point where the configuration is parsed and
`getCurrentIPAsync` has returned `curIP`. -/
def main {σ : Type} (S : Soap σ) (config : Config) (curIP : String) (now : String)
    (w : World σ) : Except Fault Unit × World σ :=
  match getPreviousIPAsync now w with
  | (.error ex, w) => (.error ex, w)
  | (.ok previousRecord, w) =>
    if some curIP != previousRecord.ip then
      let w := { w with log := w.log ++
        [LogEntry.infoIpChanged previousRecord.ip previousRecord.updateTime curIP] }
      let client := LiveDnsClient.new config.username config.password config.domain
      match client.getZonesAsync S w with
      | (.error ex, _, w) => (.error ex, w)
      | (.ok zones, client, w) =>
        let zones := (restoreRequiredHosts zones config.requiredHosts curIP).map fixHost
        match client.upsertRecordsAsync S zones curIP w with
        | (.error ex, _, w) => (.error ex, w)
        | (.ok _, _, w) =>
          match storeIPAsync curIP now w with
          | (true, w) => (.ok (), w)
          | (false, w) => (.ok (), { w with log := w.log ++ [LogEntry.warnFailedToStore] })
    else
      (.ok (), { w with log := w.log ++ [LogEntry.infoIpDidNotChange curIP] })

/-! ## A zone of A records as the remote service -/

/-- An A record held by the provider. -/
structure ARecord where
  host : String
  data : String
  ttl : Nat
  deriving DecidableEq, Repr

/-- The provider of the convergence property: its state is the list of A
records of the zone, keyed by short host name.  `DeleteARecord` removes every A
record of the host (answering `A Record does not exists` when there was none),
`NewARecord` adds one record and answers `1`, `GetZoneRecords` answers with
`snapshot`, and nothing raises. -/
def zoneSoap (snapshot : List RawRecord) : Soap (List ARecord) where
  createClient := fun z => (.ok (), z)
  GetZoneRecords := fun _ z => (.ok snapshot, z)
  DeleteARecord := fun host _ z =>
    (.ok (if z.any (fun r => r.host == host) then "1" else "A Record does not exists"),
      z.filter (fun r => r.host != host))
  NewARecord := fun ip ttl host _ z => (.ok "1", z ++ [{ host := host, data := ip, ttl := ttl }])

/-- A world in which nothing has happened yet. -/
def World.init {σ : Type} (remote : σ) (file : RecordFile) : World σ :=
  { remote := remote, calls := [], file := file, removeFault := none, writeFault := none,
    stores := [], log := [] }

/-- A provider whose `DeleteARecord` raises for host `bad`, whose `NewARecord`
raises for host `worse` and answers `0` for host `refused`; its state counts
the calls it received. -/
def faultySoap : Soap Nat where
  createClient := fun n => (.ok (), n)
  GetZoneRecords := fun _ n => (.ok [], n + 1)
  DeleteARecord := fun host _ n =>
    (if host == "bad" then .error "delete fault" else .ok "A Record does not exists", n + 1)
  NewARecord := fun _ _ host _ n =>
    (if host == "worse" then .error "create fault"
      else if host == "refused" then .ok "0" else .ok "1", n + 1)

/-- A working list for `faultySoap`: a record whose delete raises, one whose
create raises, one whose create is refused, and one that goes through. -/
def faultyZones : List ZoneRecord :=
  [⟨"bad", "Host (A)", "1.1.1.1", 3600⟩, ⟨"worse", "Host (A)", "1.1.1.1", 3600⟩,
   ⟨"refused", "Host (A)", "1.1.1.1", 3600⟩, ⟨"vpn", "Host (A)", "1.1.1.1", 3600⟩]

/-- The client object of the concrete runs. -/
def sampleClient : LiveDnsClient := LiveDnsClient.new "u" "p" "krapivin.co.il"

/-- The configuration of the concrete runs: the apex and `vpn`. -/
def sampleConfig : Config :=
  { username := "u", password := "p", domain := "krapivin.co.il", requiredHosts := ["", "vpn"] }

/-- A configuration whose only required host is the one `faultySoap` cannot
delete. -/
def badConfig : Config :=
  { username := "u", password := "p", domain := "krapivin.co.il", requiredHosts := ["bad"] }

/-- A configuration without required hosts. -/
def emptyConfig : Config :=
  { username := "u", password := "p", domain := "krapivin.co.il", requiredHosts := [] }

/-- A configuration whose only required host is `www`. -/
def wwwConfig : Config :=
  { username := "u", password := "p", domain := "krapivin.co.il", requiredHosts := ["www"] }

/-- A zone answer holding one mail-exchanger record and no A record. -/
def mxAnswer : List RawRecord :=
  [⟨"mail.krapivin.co.il.", "Mail (MX)", "10 mx.krapivin.co.il.", 3600⟩]

/-- A zone answer holding one A record, under its fully qualified name. -/
def wwwAnswer : List RawRecord :=
  [⟨"www.krapivin.co.il.", "Host (A)", "1.1.1.1", 3600⟩]

/-! ## Reading the call trace -/

/-- Whether a call is a `DeleteARecord`. -/
def Call.isDelete : Call → Bool
  | .DeleteARecord _ _ => true
  | _ => false

/-- The `HostName` argument of a `DeleteARecord` or `NewARecord` call. -/
def Call.hostName : Call → Option String
  | .DeleteARecord host _ => some host
  | .NewARecord _ _ host _ => some host
  | .GetZoneRecords _ => none

/-- The frame condition on a call trace: every `DeleteARecord` or `NewARecord`
call names a required host or the host (as returned, or as normalised by
`fixHost`) of a snapshot record of type `Host (A)`. -/
def namesOnlyAHosts (snapshot : List ZoneRecord) (requiredHosts : List String)
    (calls : List Call) : Prop :=
  ∀ c ∈ calls, ∀ h, c.hostName = some h →
    h ∈ requiredHosts ∨
      ∃ z ∈ snapshot, z.type = "Host (A)" ∧ (z.host = h ∨ (fixHost z).host = h)

/-- The two calls of one record: the delete, then the create. -/
def callPair (cred : Cred) (curIP : String) (zone : ZoneRecord) : List Call :=
  [Call.DeleteARecord zone.host cred, Call.NewARecord curIP zone.ttl zone.host cred]

/-! ## String lemmas -/

theorem occursIn_iff_infix (pat : List Char) : ∀ s, occursIn pat s = true ↔ pat <:+: s
  | [] => by
    simp [occursIn, List.isPrefixOf_iff_prefix]
  | c :: cs => by
    rw [occursIn, Bool.or_eq_true, occursIn_iff_infix pat cs, List.isPrefixOf_iff_prefix,
      List.infix_cons_iff]

theorem occursIn_tail {pat : List Char} {c : Char} {cs : List Char}
    (h : occursIn pat (c :: cs) = false) : occursIn pat cs = false := by
  rw [occursIn, Bool.or_eq_false_iff] at h
  exact h.2

theorem not_isPrefixOf_append {P S K h : List Char} (hKP : K <:+: P)
    (hB : ∀ k, k < P.length → 0 < k →
      P.isPrefixOf (P.take k ++ S) = true → occursIn K (P.take k) = true)
    (hne : h ≠ []) (hK : occursIn K h = false) : P.isPrefixOf (h ++ S) = false := by
  by_contra hcon
  rw [Bool.not_eq_false, List.isPrefixOf_iff_prefix] at hcon
  have hK' : ¬ K <:+: h := by
    rw [← occursIn_iff_infix]; simp [hK]
  rcases Nat.lt_or_ge h.length P.length with hlt | hge
  · have hpre : h <+: P :=
      List.prefix_of_prefix_length_le (List.prefix_append h S) hcon hlt.le
    have htake : h = P.take h.length := List.prefix_iff_eq_take.mp hpre
    have hpos : 0 < h.length := List.length_pos.mpr hne
    have := hB h.length hlt hpos (by rw [← htake, List.isPrefixOf_iff_prefix]; exact hcon)
    rw [← htake, hK] at this
    exact Bool.false_ne_true this
  · have hpre : P <+: h :=
      List.prefix_of_prefix_length_le hcon (List.prefix_append h S) hge
    exact hK' (hKP.trans hpre.isInfix)

theorem replaceFirst_append {P S K : List Char} (rep : List Char) (hKP : K <:+: P)
    (hB : ∀ k, k < P.length → 0 < k →
      P.isPrefixOf (P.take k ++ S) = true → occursIn K (P.take k) = true) :
    ∀ h, occursIn K h = false → replaceFirst P rep (h ++ S) = h ++ replaceFirst P rep S
  | [], _ => rfl
  | c :: cs, hK => by
    have hno := not_isPrefixOf_append hKP hB (List.cons_ne_nil c cs) hK
    rw [List.cons_append] at hno ⊢
    rw [replaceFirst, if_neg (by simp [hno]), replaceFirst_append rep hKP hB cs (occursIn_tail hK)]
    rfl


/-- Removing a pattern that holds `K` from a string without `K` changes nothing. -/
theorem replaceFirst_of_not_occurs {P K : List Char} (rep : List Char) (hKP : K <:+: P)
    (hP : P ≠ []) (h : List Char) (hK : occursIn K h = false) : replaceFirst P rep h = h := by
  have hB : ∀ k, k < P.length → 0 < k →
      P.isPrefixOf (P.take k ++ []) = true → occursIn K (P.take k) = true := by
    intro k hk _ hpre
    rw [List.append_nil, List.isPrefixOf_iff_prefix] at hpre
    have := hpre.length_le
    rw [List.length_take] at this
    omega
  have := replaceFirst_append rep hKP hB h hK
  rw [List.append_nil] at this
  rw [this]
  cases P with
  | nil => exact absurd rfl hP
  | cons p ps => simp [replaceFirst]

theorem jsReplace_short (h pat : String) (hKP : "krapivin.co.il".data <:+: pat.data)
    (hP : pat.data ≠ []) (hK : jsIncludes h "krapivin.co.il" = false) :
    jsReplace h pat "" = h := by
  unfold jsReplace
  rw [replaceFirst_of_not_occurs _ hKP hP h.data hK]

theorem fixHost_short (h t d : String) (ttl : Nat)
    (hK : jsIncludes h "krapivin.co.il" = false) :
    fixHost ⟨h, t, d, ttl⟩ = ⟨h, t, d, ttl⟩ := by
  simp only [fixHost]
  rw [jsReplace_short h ".krapivin.co.il." (by decide) (by decide) hK,
    jsReplace_short h ".krapivin.co.il" (by decide) (by decide) hK,
    jsReplace_short h "krapivin.co.il." (by decide) (by decide) hK,
    jsReplace_short h "krapivin.co.il" (by decide) (by decide) hK]

theorem jsReplace_dotted_suffix (h : String) (hK : jsIncludes h "krapivin.co.il" = false) :
    jsReplace (h ++ ".krapivin.co.il.") ".krapivin.co.il." "" = h := by
  unfold jsReplace
  rw [String.data_append,
    replaceFirst_append (K := "krapivin.co.il".data) _ (by decide) (by decide) h.data hK]
  have : replaceFirst ".krapivin.co.il.".data "".data ".krapivin.co.il.".data = [] := by decide
  rw [this, List.append_nil]

theorem jsReplace_dotted_suffix_keep (h : String)
    (hK : jsIncludes h "krapivin.co.il" = false) :
    jsReplace (h ++ ".krapivin.co.il") ".krapivin.co.il." "" = h ++ ".krapivin.co.il" := by
  unfold jsReplace
  rw [String.data_append,
    replaceFirst_append (K := "krapivin.co.il".data) _ (by decide) (by decide) h.data hK]
  have : replaceFirst ".krapivin.co.il.".data "".data ".krapivin.co.il".data
      = ".krapivin.co.il".data := by decide
  rw [this, ← String.data_append]

theorem jsReplace_suffix (h : String) (hK : jsIncludes h "krapivin.co.il" = false) :
    jsReplace (h ++ ".krapivin.co.il") ".krapivin.co.il" "" = h := by
  unfold jsReplace
  rw [String.data_append,
    replaceFirst_append (K := "krapivin.co.il".data) _ (by decide) (by decide) h.data hK]
  have : replaceFirst ".krapivin.co.il".data "".data ".krapivin.co.il".data = [] := by decide
  rw [this, List.append_nil]

/-- C9. Hostname normalization for the domain `fixHost` strips.  For every host
name `h` that does not contain `krapivin.co.il`, `fixHost` returns the record
unchanged when its host is `h`, and returns host `h` with the same `type`, `data`
and `ttl` when its host is `h + '.krapivin.co.il.'` or `h + '.krapivin.co.il'`. -/
theorem fixHost_normalizes (h t d : String) (ttl : Nat)
    (hK : jsIncludes h "krapivin.co.il" = false) :
    fixHost ⟨h, t, d, ttl⟩ = ⟨h, t, d, ttl⟩ ∧
    fixHost ⟨h ++ ".krapivin.co.il.", t, d, ttl⟩ = ⟨h, t, d, ttl⟩ ∧
    fixHost ⟨h ++ ".krapivin.co.il", t, d, ttl⟩ = ⟨h, t, d, ttl⟩ := by
  refine ⟨fixHost_short h t d ttl hK, ?_, ?_⟩
  · have := fixHost_short h t d ttl hK
    simp only [fixHost] at this ⊢
    rw [jsReplace_dotted_suffix h hK]
    rw [jsReplace_short h ".krapivin.co.il." (by decide) (by decide) hK] at this
    exact this
  · have := fixHost_short h t d ttl hK
    simp only [fixHost] at this ⊢
    rw [jsReplace_dotted_suffix_keep h hK, jsReplace_suffix h hK]
    rw [jsReplace_short h ".krapivin.co.il." (by decide) (by decide) hK,
      jsReplace_short h ".krapivin.co.il" (by decide) (by decide) hK] at this
    exact this

/-- Witness of C9: `www.krapivin.co.il.` and `www.krapivin.co.il` both yield
`www`, and `www` is left as it is. -/
theorem fixHost_normalizes_witness :
    jsIncludes "www" "krapivin.co.il" = false ∧
    fixHost ⟨"www", "Host (A)", "1.1.1.1", 3600⟩ = ⟨"www", "Host (A)", "1.1.1.1", 3600⟩ ∧
    fixHost ⟨"www" ++ ".krapivin.co.il.", "Host (A)", "1.1.1.1", 3600⟩
      = ⟨"www", "Host (A)", "1.1.1.1", 3600⟩ ∧
    fixHost ⟨"www" ++ ".krapivin.co.il", "Host (A)", "1.1.1.1", 3600⟩
      = ⟨"www", "Host (A)", "1.1.1.1", 3600⟩ :=
  ⟨by decide, fixHost_normalizes "www" "Host (A)" "1.1.1.1" 3600 (by decide)⟩

/-! ## `restoreRequiredHosts` -/

theorem findIndex_eq_neg_one {α : Type} (p : α → Bool) :
    ∀ l : List α, (∀ a ∈ l, p a = false) → findIndex p l = -1
  | [], _ => rfl
  | a :: as, h => by
    have ha : p a = false := h a (List.mem_cons_self a as)
    have ih := findIndex_eq_neg_one p as (fun b hb => h b (List.mem_cons_of_mem a hb))
    simp only [findIndex, ha, ih]
    rfl

theorem findIndex_nonneg {α : Type} (p : α → Bool) :
    ∀ l : List α, (∃ a ∈ l, p a = true) → ∃ i : Nat, findIndex p l = Int.ofNat i
  | [], h => by
    obtain ⟨a, ha, _⟩ := h
    cases ha
  | a :: as, h => by
    cases hpa : p a with
    | true => exact ⟨0, by simp [findIndex, hpa]⟩
    | false =>
      have hex : ∃ b ∈ as, p b = true := by
        obtain ⟨b, hb, hpb⟩ := h
        rcases List.mem_cons.mp hb with rfl | hb
        · rw [hpa] at hpb; cases hpb
        · exact ⟨b, hb, hpb⟩
      obtain ⟨i, hi⟩ := findIndex_nonneg p as hex
      exact ⟨i + 1, by simp [findIndex, hpa, hi]⟩

/-- The test of `restoreRequiredHosts`: `findIndex(...) === -1` holds exactly
when no record of `zones` has host `x`. -/
theorem findIndex_host_eq (zones : List ZoneRecord) (x : String) :
    (findIndex (fun zone : ZoneRecord => zone.host == x) zones == -1)
      = !zones.any (fun zone => zone.host == x) := by
  by_cases h : ∃ z ∈ zones, (z.host == x) = true
  · obtain ⟨i, hi⟩ := findIndex_nonneg _ zones h
    have hany : zones.any (fun zone => zone.host == x) = true := List.any_eq_true.mpr h
    rw [hi, hany]
    rfl
  · have hall : ∀ z ∈ zones, (z.host == x) = false := by
      intro z hz
      by_contra hc
      exact h ⟨z, hz, by simpa using hc⟩
    have hany : zones.any (fun zone => zone.host == x) = false := by
      rw [List.any_eq_false]
      intro z hz
      simp [hall z hz]
    rw [findIndex_eq_neg_one _ zones hall, hany]
    rfl

theorem foldl_push {α β : Type} (f : β → α) :
    ∀ (l : List β) (init : List α), l.foldl (fun acc b => acc ++ [f b]) init = init ++ l.map f
  | [], init => by simp
  | b :: l, init => by
    rw [List.foldl_cons, foldl_push f l, List.map_cons, List.append_assoc]
    rfl

/-- The placeholder record pushed for a missing host. -/
theorem restoreRequiredHosts_eq (zones : List ZoneRecord) (requiredHosts : List String)
    (curIP : String) :
    restoreRequiredHosts zones requiredHosts curIP
      = zones ++ (requiredHosts.filter (fun h => !zones.any (fun zone => zone.host == h))).map
          (fun h => { host := h, type := "Host (A)", data := curIP, ttl := 14400 }) := by
  unfold restoreRequiredHosts
  simp only [findIndex_host_eq]
  exact foldl_push _ _ _

theorem restoreRequiredHosts_covers (zones : List ZoneRecord) (requiredHosts : List String)
    (curIP : String) (h : String) (hh : h ∈ requiredHosts) :
    ∃ z ∈ restoreRequiredHosts zones requiredHosts curIP, z.host = h := by
  rw [restoreRequiredHosts_eq]
  by_cases hz : ∃ z ∈ zones, z.host = h
  · obtain ⟨z, hz, hzh⟩ := hz
    exact ⟨z, List.mem_append_left _ hz, hzh⟩
  · refine ⟨{ host := h, type := "Host (A)", data := curIP, ttl := 14400 }, ?_, rfl⟩
    apply List.mem_append_right
    rw [List.mem_map]
    refine ⟨h, ?_, rfl⟩
    rw [List.mem_filter]
    refine ⟨hh, ?_⟩
    simp only [Bool.not_eq_true', List.any_eq_false, beq_iff_eq]
    intro z hzm hzh
    exact hz ⟨z, hzm, hzh⟩

/-- C2. `restoreRequiredHosts` returns the given records unchanged and in order,
followed by one placeholder `{host: h, type: 'Host (A)', data: curIP, ttl: 14400}`
for each required host `h`, in configuration order, that is the host of no given
record; so every required host (the empty apex host too) is the host of a record
of the result.  On required hosts `['', 'vpn']`, zone `[vpn -> 1.1.1.1, ttl 3600]`
and `curIP = '2.2.2.2'` the result is the `vpn` record followed by
`{host: '', data: '2.2.2.2', ttl: 14400}`. -/
theorem restoreRequiredHosts_spec (zones : List ZoneRecord) (requiredHosts : List String)
    (curIP : String) :
    restoreRequiredHosts zones requiredHosts curIP
        = zones ++ (requiredHosts.filter (fun h => decide (∀ zone ∈ zones, zone.host ≠ h))).map
            (fun h => { host := h, type := "Host (A)", data := curIP, ttl := 14400 }) ∧
      (∀ h ∈ requiredHosts, ∃ z ∈ restoreRequiredHosts zones requiredHosts curIP, z.host = h) ∧
      restoreRequiredHosts [⟨"vpn", "Host (A)", "1.1.1.1", 3600⟩] ["", "vpn"] "2.2.2.2"
        = [⟨"vpn", "Host (A)", "1.1.1.1", 3600⟩, ⟨"", "Host (A)", "2.2.2.2", 14400⟩] := by
  refine ⟨?_, fun h hh => restoreRequiredHosts_covers zones requiredHosts curIP h hh, by decide⟩
  have htest : (fun h => !zones.any (fun zone => zone.host == h))
      = (fun h => decide (∀ zone ∈ zones, zone.host ≠ h)) := by
    funext h
    by_cases hz : ∀ zone ∈ zones, zone.host ≠ h
    · rw [decide_eq_true hz]
      simp only [Bool.not_eq_true', List.any_eq_false, beq_iff_eq]
      exact hz
    · rw [decide_eq_false hz]
      simp only [Bool.not_eq_false', List.any_eq_true, beq_iff_eq]
      push_neg at hz
      exact hz
  rw [restoreRequiredHosts_eq, htest]

/-! ## The loop of `upsertRecordsAsync` -/

/-- Calls of one iteration: the delete, and the create unless the delete raised. -/
theorem upsertStep_calls {σ : Type} (S : Soap σ) (self : LiveDnsClient) (curIP : String)
    (w : World σ) (zone : ZoneRecord) :
    (self.upsertStep S curIP w zone).calls
      = w.calls ++ Call.DeleteARecord zone.host self.cred ::
          (if (S.DeleteARecord zone.host self.cred w.remote).1.isOk
            then [Call.NewARecord curIP zone.ttl zone.host self.cred] else []) := by
  rcases hD : S.DeleteARecord zone.host self.cred w.remote with ⟨ex | v, r⟩
  · simp [LiveDnsClient.upsertStep, LiveDnsClient.upsertTry, hD, Except.isOk, Except.toBool]
  · rcases hN : S.NewARecord curIP zone.ttl zone.host self.cred r with ⟨ex | v2, r2⟩ <;>
      simp [LiveDnsClient.upsertStep, LiveDnsClient.upsertTry, hD, hN, Except.isOk,
        Except.toBool]

/-- What an iteration leaves alone: the record file and the file-system faults. -/
theorem upsertStep_frame {σ : Type} (S : Soap σ) (self : LiveDnsClient) (curIP : String)
    (w : World σ) (zone : ZoneRecord) :
    (self.upsertStep S curIP w zone).file = w.file ∧
    (self.upsertStep S curIP w zone).stores = w.stores ∧
    (self.upsertStep S curIP w zone).writeFault = w.writeFault ∧
    (self.upsertStep S curIP w zone).removeFault = w.removeFault := by
  rcases hD : S.DeleteARecord zone.host self.cred w.remote with ⟨ex | v, r⟩
  · simp [LiveDnsClient.upsertStep, LiveDnsClient.upsertTry, hD]
  · rcases hN : S.NewARecord curIP zone.ttl zone.host self.cred r with ⟨ex | v2, r2⟩ <;>
      simp [LiveDnsClient.upsertStep, LiveDnsClient.upsertTry, hD, hN]

theorem upsertLoop_frame {σ : Type} (S : Soap σ) (self : LiveDnsClient) (curIP : String) :
    ∀ (zones : List ZoneRecord) (w : World σ),
      (zones.foldl (self.upsertStep S curIP) w).file = w.file ∧
      (zones.foldl (self.upsertStep S curIP) w).stores = w.stores ∧
      (zones.foldl (self.upsertStep S curIP) w).writeFault = w.writeFault ∧
      (zones.foldl (self.upsertStep S curIP) w).removeFault = w.removeFault
  | [], w => ⟨rfl, rfl, rfl, rfl⟩
  | z :: zs, w => by
    obtain ⟨h1, h2, h3, h4⟩ := upsertLoop_frame S self curIP zs (self.upsertStep S curIP w z)
    obtain ⟨g1, g2, g3, g4⟩ := upsertStep_frame S self curIP w z
    rw [List.foldl_cons]
    exact ⟨h1.trans g1, h2.trans g2, h3.trans g3, h4.trans g4⟩

/-- The calls of the loop: for each record its delete first, a create only right
after the delete of the same record. -/
theorem upsertLoop_calls {σ : Type} (S : Soap σ) (self : LiveDnsClient) (curIP : String) :
    ∀ (zones : List ZoneRecord) (w : World σ),
      ∃ news, (zones.foldl (self.upsertStep S curIP) w).calls = w.calls ++ news ∧
        news.filter Call.isDelete = zones.map (fun z => Call.DeleteARecord z.host self.cred) ∧
        ∀ c ∈ news, ∃ z ∈ zones, c ∈ callPair self.cred curIP z
  | [], w => ⟨[], by simp⟩
  | z :: zs, w => by
    obtain ⟨news, hcalls, hdel, hmem⟩ :=
      upsertLoop_calls S self curIP zs (self.upsertStep S curIP w z)
    rw [List.foldl_cons, hcalls, upsertStep_calls, List.append_assoc]
    refine ⟨_, rfl, ?_, ?_⟩
    · rw [List.cons_append, List.filter_cons_of_pos (by rfl), List.filter_append, hdel,
        List.map_cons]
      split_ifs <;> simp [List.filter, Call.isDelete]
    · intro c hc
      rw [List.cons_append, List.mem_cons, List.mem_append] at hc
      rcases hc with rfl | hc | hc
      · exact ⟨z, List.mem_cons_self z zs, by simp [callPair]⟩
      · split_ifs at hc
        · rw [List.mem_singleton] at hc
          exact ⟨z, List.mem_cons_self z zs, by simp [callPair, hc]⟩
        · cases hc
      · obtain ⟨z', hz', hc'⟩ := hmem c hc
        exact ⟨z', List.mem_cons_of_mem z hz', hc'⟩

/-- When neither call raises, the loop issues exactly the call pairs. -/
theorem upsertLoop_calls_of_no_raise {σ : Type} (S : Soap σ) (self : LiveDnsClient)
    (curIP : String)
    (hD : ∀ host cred s, ∃ v, (S.DeleteARecord host cred s).1 = .ok v) :
    ∀ (zones : List ZoneRecord) (w : World σ),
      (zones.foldl (self.upsertStep S curIP) w).calls
        = w.calls ++ (zones.map (callPair self.cred curIP)).flatten
  | [], w => by simp
  | z :: zs, w => by
    obtain ⟨v, hv⟩ := hD z.host self.cred w.remote
    rw [List.foldl_cons, upsertLoop_calls_of_no_raise S self curIP hD zs, upsertStep_calls, hv]
    simp [Except.isOk, Except.toBool, callPair]


/-! ## `getLiveDnsClientAsync` and `upsertRecordsAsync` -/

/-- Obtaining the client changes neither the credentials nor anything of the
world but the remote state. -/
theorem getLiveDnsClientAsync_frame {σ : Type} (S : Soap σ) (self : LiveDnsClient)
    (w : World σ) :
    (self.getLiveDnsClientAsync S w).2.1.cred = self.cred ∧
    (self.getLiveDnsClientAsync S w).2.2.calls = w.calls ∧
    (self.getLiveDnsClientAsync S w).2.2.file = w.file ∧
    (self.getLiveDnsClientAsync S w).2.2.stores = w.stores ∧
    (self.getLiveDnsClientAsync S w).2.2.writeFault = w.writeFault ∧
    (self.getLiveDnsClientAsync S w).2.2.removeFault = w.removeFault ∧
    (self.getLiveDnsClientAsync S w).2.2.log = w.log := by
  unfold LiveDnsClient.getLiveDnsClientAsync
  cases self.client
  · rcases hC : S.createClient w.remote with ⟨ex | v, r⟩ <;> simp [hC]
  · simp

/-- With the client obtained, `upsertRecordsAsync` is its loop. -/
theorem upsertRecordsAsync_eq {σ : Type} (S : Soap σ) (self : LiveDnsClient)
    (zones : List ZoneRecord) (curIP : String) (w : World σ)
    (hC : (self.getLiveDnsClientAsync S w).1 = .ok ()) :
    self.upsertRecordsAsync S zones curIP w
      = (.ok (), (self.getLiveDnsClientAsync S w).2.1,
          zones.foldl ((self.getLiveDnsClientAsync S w).2.1.upsertStep S curIP)
            (self.getLiveDnsClientAsync S w).2.2) := by
  unfold LiveDnsClient.upsertRecordsAsync
  rcases hg : self.getLiveDnsClientAsync S w with ⟨ex | v, self', w'⟩
  · rw [hg] at hC; cases hC
  · rfl

/-- The step function depends on the client object through its credentials only. -/
theorem upsertStep_congr {σ : Type} (S : Soap σ) (self self' : LiveDnsClient)
    (h : self'.cred = self.cred) (curIP : String) :
    self'.upsertStep S curIP = self.upsertStep S curIP := by
  funext w zone
  simp only [LiveDnsClient.upsertStep, LiveDnsClient.upsertTry, h]

/-- C3. When the client is obtained and no `DeleteARecord` call raises, the calls
issued by `upsertRecordsAsync` are exactly, for each record in list order,
`DeleteARecord(HostName = record.host)` immediately followed by
`NewARecord(IPAddress = curIP, TTL = record.ttl, HostName = record.host)`;
this holds for every provider, so whatever the delete calls return (also
`A Record does not exists`) and whatever the create calls do. -/
theorem upsertRecordsAsync_calls {σ : Type} (S : Soap σ) (self : LiveDnsClient)
    (zones : List ZoneRecord) (curIP : String) (w : World σ)
    (hC : (self.getLiveDnsClientAsync S w).1 = .ok ())
    (hD : ∀ host cred s, ∃ v, (S.DeleteARecord host cred s).1 = .ok v) :
    (self.upsertRecordsAsync S zones curIP w).2.2.calls
      = w.calls ++ (zones.map (fun zone =>
          [Call.DeleteARecord zone.host self.cred,
           Call.NewARecord curIP zone.ttl zone.host self.cred])).flatten := by
  obtain ⟨hcred, hcalls, -⟩ := getLiveDnsClientAsync_frame S self w
  rw [upsertRecordsAsync_eq S self zones curIP w hC, upsertStep_congr S self _ hcred,
    upsertLoop_calls_of_no_raise S self curIP hD, hcalls]
  rfl

/-- Witness of C3: two records, the second without an A record at the provider,
so that its delete answers `A Record does not exists`. -/
theorem upsertRecordsAsync_calls_witness :
    ((LiveDnsClient.new "u" "p" "krapivin.co.il").getLiveDnsClientAsync (zoneSoap [])
        (World.init [⟨"vpn", "1.1.1.1", 3600⟩] .absent)).1 = .ok () ∧
    (∀ host cred s, ∃ v, ((zoneSoap []).DeleteARecord host cred s).1 = .ok v) ∧
    ((LiveDnsClient.new "u" "p" "krapivin.co.il").upsertRecordsAsync (zoneSoap [])
        [⟨"vpn", "Host (A)", "1.1.1.1", 3600⟩, ⟨"", "Host (A)", "2.2.2.2", 14400⟩] "2.2.2.2"
        (World.init [⟨"vpn", "1.1.1.1", 3600⟩] .absent)).2.2.calls
      = [] ++ ([⟨"vpn", "Host (A)", "1.1.1.1", 3600⟩, ⟨"", "Host (A)", "2.2.2.2", 14400⟩].map
          (fun zone : ZoneRecord =>
            [Call.DeleteARecord zone.host (LiveDnsClient.new "u" "p" "krapivin.co.il").cred,
             Call.NewARecord "2.2.2.2" zone.ttl zone.host
               (LiveDnsClient.new "u" "p" "krapivin.co.il").cred])).flatten :=
  ⟨rfl, fun _ _ _ => ⟨_, rfl⟩,
    upsertRecordsAsync_calls (zoneSoap []) (LiveDnsClient.new "u" "p" "krapivin.co.il")
      [⟨"vpn", "Host (A)", "1.1.1.1", 3600⟩, ⟨"", "Host (A)", "2.2.2.2", 14400⟩] "2.2.2.2"
      (World.init [⟨"vpn", "1.1.1.1", 3600⟩] .absent) rfl (fun _ _ _ => ⟨_, rfl⟩)⟩

/-- C4. Isolation across hosts.  For every provider behaviour (any
`DeleteARecord` or `NewARecord` call may raise, `NewARecord` may answer anything),
once the client is obtained `upsertRecordsAsync` completes without raising; the
`DeleteARecord` calls it issues are those of all records, in list order, and every
call it issues belongs to a record of the list; and for every record `zone` of
the list, whatever happened on the records before it, `DeleteARecord(zone.host)`
is the next call, `NewARecord` for `zone` follows it exactly when that delete did
not raise, and the deletes of all later records follow. -/
theorem upsertRecordsAsync_isolation {σ : Type} (S : Soap σ) (self : LiveDnsClient)
    (zones : List ZoneRecord) (curIP : String) (w : World σ)
    (hC : (self.getLiveDnsClientAsync S w).1 = .ok ()) :
    (self.upsertRecordsAsync S zones curIP w).1 = .ok () ∧
    (∃ news, (self.upsertRecordsAsync S zones curIP w).2.2.calls = w.calls ++ news ∧
      news.filter Call.isDelete = zones.map (fun z => Call.DeleteARecord z.host self.cred) ∧
      ∀ c ∈ news, ∃ z ∈ zones, c = Call.DeleteARecord z.host self.cred ∨
        c = Call.NewARecord curIP z.ttl z.host self.cred) ∧
    ∀ pre zone post, zones = pre ++ zone :: post →
      ∃ rest, (self.upsertRecordsAsync S zones curIP w).2.2.calls
          = (self.upsertRecordsAsync S pre curIP w).2.2.calls
            ++ Call.DeleteARecord zone.host self.cred ::
              ((if (S.DeleteARecord zone.host self.cred
                    (self.upsertRecordsAsync S pre curIP w).2.2.remote).1.isOk
                then [Call.NewARecord curIP zone.ttl zone.host self.cred] else []) ++ rest) ∧
        rest.filter Call.isDelete = post.map (fun z => Call.DeleteARecord z.host self.cred) := by
  obtain ⟨hcred, hcalls, -⟩ := getLiveDnsClientAsync_frame S self w
  refine ⟨by rw [upsertRecordsAsync_eq S self zones curIP w hC], ?_, ?_⟩
  · rw [upsertRecordsAsync_eq S self zones curIP w hC, upsertStep_congr S self _ hcred]
    obtain ⟨news, h1, h2, h3⟩ :=
      upsertLoop_calls S self curIP zones (self.getLiveDnsClientAsync S w).2.2
    refine ⟨news, by rw [h1, hcalls], h2, ?_⟩
    intro c hc
    obtain ⟨z, hz, hcz⟩ := h3 c hc
    refine ⟨z, hz, ?_⟩
    simpa [callPair] using hcz
  · intro pre zone post hz
    rw [upsertRecordsAsync_eq S self zones curIP w hC,
      upsertRecordsAsync_eq S self pre curIP w hC, upsertStep_congr S self _ hcred, hz,
      List.foldl_append, List.foldl_cons]
    obtain ⟨news, h1, h2, -⟩ := upsertLoop_calls S self curIP post
      (self.upsertStep S curIP
        (pre.foldl (self.upsertStep S curIP) (self.getLiveDnsClientAsync S w).2.2) zone)
    refine ⟨news, ?_, h2⟩
    rw [h1, upsertStep_calls, List.append_assoc]
    rfl


/-- Witness of C4 on `faultySoap`: the delete of `bad` raises, the create of
`worse` raises, the create of `refused` is refused, and all four deletes are
still issued. -/
theorem upsertRecordsAsync_isolation_witness :
    (sampleClient.getLiveDnsClientAsync faultySoap (World.init 0 .absent)).1 = .ok () ∧
    (sampleClient.upsertRecordsAsync faultySoap faultyZones "2.2.2.2" (World.init 0 .absent)).1
      = .ok () ∧
    (∃ rest, (sampleClient.upsertRecordsAsync faultySoap faultyZones "2.2.2.2"
          (World.init 0 .absent)).2.2.calls
        = (sampleClient.upsertRecordsAsync faultySoap [⟨"bad", "Host (A)", "1.1.1.1", 3600⟩]
            "2.2.2.2" (World.init 0 .absent)).2.2.calls
          ++ Call.DeleteARecord "worse" sampleClient.cred ::
            ((if (faultySoap.DeleteARecord "worse" sampleClient.cred
                  (sampleClient.upsertRecordsAsync faultySoap
                    [⟨"bad", "Host (A)", "1.1.1.1", 3600⟩] "2.2.2.2"
                    (World.init 0 .absent)).2.2.remote).1.isOk
              then [Call.NewARecord "2.2.2.2" 3600 "worse" sampleClient.cred] else []) ++ rest) ∧
      rest.filter Call.isDelete
        = [Call.DeleteARecord "refused" sampleClient.cred,
           Call.DeleteARecord "vpn" sampleClient.cred]) ∧
    (sampleClient.upsertRecordsAsync faultySoap faultyZones "2.2.2.2"
        (World.init 0 .absent)).2.2.calls
      = [Call.DeleteARecord "bad" sampleClient.cred,
         Call.DeleteARecord "worse" sampleClient.cred,
         Call.NewARecord "2.2.2.2" 3600 "worse" sampleClient.cred,
         Call.DeleteARecord "refused" sampleClient.cred,
         Call.NewARecord "2.2.2.2" 3600 "refused" sampleClient.cred,
         Call.DeleteARecord "vpn" sampleClient.cred,
         Call.NewARecord "2.2.2.2" 3600 "vpn" sampleClient.cred] :=
  ⟨rfl,
    (upsertRecordsAsync_isolation faultySoap sampleClient faultyZones "2.2.2.2"
      (World.init 0 .absent) rfl).1,
    (upsertRecordsAsync_isolation faultySoap sampleClient faultyZones "2.2.2.2"
      (World.init 0 .absent) rfl).2.2 [⟨"bad", "Host (A)", "1.1.1.1", 3600⟩]
      ⟨"worse", "Host (A)", "1.1.1.1", 3600⟩
      [⟨"refused", "Host (A)", "1.1.1.1", 3600⟩, ⟨"vpn", "Host (A)", "1.1.1.1", 3600⟩] rfl,
    by decide⟩


/-! ## `getZonesAsync`, the record file and `main` -/

/-- The outcome of `getZonesAsync` when it returns: the client is cached, one
`GetZoneRecords` call was made, and the records are the answer without its
name-server records. -/
theorem getZonesAsync_ok {σ : Type} (S : Soap σ) (self self' : LiveDnsClient)
    (w w' : World σ) (zones : List ZoneRecord)
    (h : self.getZonesAsync S w = (.ok zones, self', w')) :
    self'.client = true ∧ self'.cred = self.cred ∧
    w'.calls = w.calls ++ [Call.GetZoneRecords self.cred] ∧
    w'.file = w.file ∧ w'.stores = w.stores ∧ w'.writeFault = w.writeFault ∧
    w'.log = w.log ∧
    ∃ raw, (S.GetZoneRecords self.cred (self.getLiveDnsClientAsync S w).2.2.remote).1 = .ok raw ∧
      zones = (raw.filter (fun x => x.Typ != "Name Server (NS)")).map
        (fun x => { host := x.Host, type := x.Typ, data := x.Data, ttl := x.TTL }) := by
  unfold LiveDnsClient.getZonesAsync at h
  have hclient : (self.getLiveDnsClientAsync S w).2.1.client = true := by
    unfold LiveDnsClient.getLiveDnsClientAsync
    cases hc : self.client
    · rcases hC : S.createClient w.remote with ⟨ex | v, r⟩
      · simp [hC, LiveDnsClient.getLiveDnsClientAsync, hc] at h
      · simp [hC]
    · simp [hc]
  obtain ⟨hcred, hcalls, hfile, hstores, hwf, -, hlog⟩ := getLiveDnsClientAsync_frame S self w
  rcases hg : self.getLiveDnsClientAsync S w with ⟨ex | v, self1, w1⟩
  · simp [hg] at h
  · rw [hg] at hclient hcred hcalls hfile hstores hwf hlog
    simp only at hclient hcred hcalls hfile hstores hwf hlog
    simp only [hg] at h
    rcases hZ : S.GetZoneRecords self1.cred w1.remote with ⟨ex | raw, r⟩
    · simp [hZ] at h
    · simp only [hZ, Prod.mk.injEq, Except.ok.injEq] at h
      obtain ⟨hz, hs, hw⟩ := h
      subst hs hw
      refine ⟨hclient, hcred, ?_, hfile, hstores, hwf, hlog, raw, ?_, hz.symm⟩
      · simp [hcalls, hcred]
      · rw [← hcred, hZ]

/-- When `getZonesAsync` raises, it leaves the record file and the store history
as they were, and issues no `DeleteARecord` or `NewARecord` call. -/
theorem getZonesAsync_error {σ : Type} (S : Soap σ) (self self' : LiveDnsClient)
    (w w' : World σ) (ex : Fault)
    (h : self.getZonesAsync S w = (.error ex, self', w')) :
    w'.file = w.file ∧ w'.stores = w.stores ∧ w'.log = w.log ∧
    ∃ news, w'.calls = w.calls ++ news ∧ ∀ c ∈ news, c.hostName = none := by
  unfold LiveDnsClient.getZonesAsync at h
  obtain ⟨hcred, hcalls, hfile, hstores, hwf, -, hlog⟩ := getLiveDnsClientAsync_frame S self w
  rcases hg : self.getLiveDnsClientAsync S w with ⟨ex1 | v, self1, w1⟩
  · rw [hg] at hcred hcalls hfile hstores hwf hlog
    simp only [hg, Prod.mk.injEq] at h
    obtain ⟨-, -, hw⟩ := h
    subst hw
    exact ⟨hfile, hstores, hlog, [], by simpa using hcalls, by simp⟩
  · rw [hg] at hcred hcalls hfile hstores hwf hlog
    simp only at hcred hcalls hfile hstores hwf hlog
    simp only [hg] at h
    rcases hZ : S.GetZoneRecords self1.cred w1.remote with ⟨ex2 | raw, r⟩
    · simp only [hZ, Prod.mk.injEq] at h
      obtain ⟨-, -, hw⟩ := h
      subst hw
      exact ⟨hfile, hstores, hlog, [Call.GetZoneRecords self1.cred], by simp [hcalls],
        by simp [Call.hostName]⟩
    · simp [hZ] at h

/-- What `getPreviousIPAsync` leaves alone, and the record it returns. -/
theorem getPreviousIPAsync_frame {σ : Type} (now : String) (w w1 : World σ)
    (prev : PreviousRecord) (h : getPreviousIPAsync now w = (.ok prev, w1)) :
    w1.remote = w.remote ∧ w1.calls = w.calls ∧ w1.stores = w.stores ∧
    w1.writeFault = w.writeFault ∧ w1.persisted = w.persisted ∧
    (∃ l, w1.log = w.log ++ l) ∧
    (prev = ⟨some "127.0.0.1", now⟩ ∨ w.file = .record prev.ip prev.updateTime) := by
  unfold getPreviousIPAsync at h
  rcases hf : w.file with _ | ex | ⟨ip, t⟩
  · simp only [hf, Prod.mk.injEq, Except.ok.injEq] at h
    obtain ⟨hp, hw⟩ := h
    subst hp hw
    exact ⟨rfl, rfl, rfl, rfl, rfl, ⟨[], by simp⟩, Or.inl rfl⟩
  · simp only [hf] at h
    rcases hr : w.removeFault with _ | ex2
    · simp only [hr, Prod.mk.injEq, Except.ok.injEq] at h
      obtain ⟨hp, hw⟩ := h
      subst hp hw
      exact ⟨rfl, rfl, rfl, rfl, by simp [World.persisted, hf], ⟨_, rfl⟩, Or.inl rfl⟩
    · simp [hr] at h
  · simp only [hf, Prod.mk.injEq, Except.ok.injEq] at h
    obtain ⟨hp, hw⟩ := h
    subst hp hw
    exact ⟨rfl, rfl, rfl, rfl, rfl, ⟨[], by simp⟩, Or.inr rfl⟩

/-- The run of `main` when the IP did not change. -/
theorem main_of_same {σ : Type} (S : Soap σ) (config : Config) (curIP now : String)
    (w w1 : World σ) (prev : PreviousRecord)
    (hprev : getPreviousIPAsync now w = (.ok prev, w1)) (heq : prev.ip = some curIP) :
    main S config curIP now w
      = (.ok (), { w1 with log := w1.log ++ [LogEntry.infoIpDidNotChange curIP] }) := by
  unfold main
  simp only [hprev, heq]
  simp

/-- The run of `main` when the IP changed and `getZonesAsync` raised. -/
theorem main_of_changed_error {σ : Type} (S : Soap σ) (config : Config) (curIP now : String)
    (w w1 w2 : World σ) (prev : PreviousRecord) (client : LiveDnsClient) (ex : Fault)
    (hprev : getPreviousIPAsync now w = (.ok prev, w1)) (hne : prev.ip ≠ some curIP)
    (hz : (LiveDnsClient.new config.username config.password config.domain).getZonesAsync S
        { w1 with log := w1.log ++ [LogEntry.infoIpChanged prev.ip prev.updateTime curIP] }
      = (.error ex, client, w2)) :
    main S config curIP now w = (.error ex, w2) := by
  unfold main
  have hne' : (some curIP != prev.ip) = true := by
    simp only [bne_iff_ne, ne_eq]
    exact fun h => hne h.symm
  simp only [hprev, hne', if_true, hz]

/-- The run of `main` when the IP changed and `getZonesAsync` returned. -/
theorem main_of_changed_ok {σ : Type} (S : Soap σ) (config : Config) (curIP now : String)
    (w w1 w2 : World σ) (prev : PreviousRecord) (client : LiveDnsClient)
    (zones : List ZoneRecord)
    (hprev : getPreviousIPAsync now w = (.ok prev, w1)) (hne : prev.ip ≠ some curIP)
    (hz : (LiveDnsClient.new config.username config.password config.domain).getZonesAsync S
        { w1 with log := w1.log ++ [LogEntry.infoIpChanged prev.ip prev.updateTime curIP] }
      = (.ok zones, client, w2)) :
    main S config curIP now w
      = (.ok (),
          if (storeIPAsync curIP now
              (((restoreRequiredHosts zones config.requiredHosts curIP).map fixHost).foldl
                (client.upsertStep S curIP) w2)).1
          then (storeIPAsync curIP now
              (((restoreRequiredHosts zones config.requiredHosts curIP).map fixHost).foldl
                (client.upsertStep S curIP) w2)).2
          else { (storeIPAsync curIP now
              (((restoreRequiredHosts zones config.requiredHosts curIP).map fixHost).foldl
                (client.upsertStep S curIP) w2)).2 with
            log := (storeIPAsync curIP now
              (((restoreRequiredHosts zones config.requiredHosts curIP).map fixHost).foldl
                (client.upsertStep S curIP) w2)).2.log ++ [LogEntry.warnFailedToStore] }) := by
  unfold main
  have hne' : (some curIP != prev.ip) = true := by
    simp only [bne_iff_ne, ne_eq]
    exact fun h => hne h.symm
  obtain ⟨hclient, -⟩ := getZonesAsync_ok S _ _ _ _ _ hz
  have hup : ∀ zs, client.upsertRecordsAsync S zs curIP w2
      = (.ok (), client, zs.foldl (client.upsertStep S curIP) w2) := by
    intro zs
    simp [LiveDnsClient.upsertRecordsAsync, LiveDnsClient.getLiveDnsClientAsync, hclient]
  simp only [hprev, hne', if_true, hz, hup]
  rcases hs : storeIPAsync curIP now
      (((restoreRequiredHosts zones config.requiredHosts curIP).map fixHost).foldl
        (client.upsertStep S curIP) w2) with ⟨_ | _, w4⟩ <;> simp


/-- The effect of `storeIPAsync`. -/
theorem storeIPAsync_frame {σ : Type} (ip now : String) (w : World σ) :
    (storeIPAsync ip now w).2.calls = w.calls ∧
    (storeIPAsync ip now w).2.remote = w.remote ∧
    (storeIPAsync ip now w).2.stores = w.stores ++ [ip] ∧
    (storeIPAsync ip now w).2.file
      = (if w.writeFault = none then RecordFile.record (some ip) now else w.file) ∧
    ∃ l, (storeIPAsync ip now w).2.log = w.log ++ l := by
  unfold storeIPAsync
  rcases hf : w.writeFault with _ | ex
  · exact ⟨rfl, rfl, rfl, by simp, [], by simp⟩
  · exact ⟨rfl, rfl, rfl, by simp, _, rfl⟩

theorem upsertStep_log {σ : Type} (S : Soap σ) (self : LiveDnsClient) (curIP : String)
    (w : World σ) (zone : ZoneRecord) :
    ∃ l, (self.upsertStep S curIP w zone).log = w.log ++ l := by
  rcases hD : S.DeleteARecord zone.host self.cred w.remote with ⟨ex | v, r⟩
  · simp only [LiveDnsClient.upsertStep, LiveDnsClient.upsertTry, hD]
    exact ⟨_, rfl⟩
  · rcases hN : S.NewARecord curIP zone.ttl zone.host self.cred r with ⟨ex | v2, r2⟩
    · simp only [LiveDnsClient.upsertStep, LiveDnsClient.upsertTry, hD, hN, List.append_assoc]
      exact ⟨_, rfl⟩
    · simp only [LiveDnsClient.upsertStep, LiveDnsClient.upsertTry, hD, hN, List.append_assoc]
      exact ⟨_, rfl⟩

theorem upsertLoop_log {σ : Type} (S : Soap σ) (self : LiveDnsClient) (curIP : String) :
    ∀ (zones : List ZoneRecord) (w : World σ),
      ∃ l, (zones.foldl (self.upsertStep S curIP) w).log = w.log ++ l
  | [], w => ⟨[], by simp⟩
  | z :: zs, w => by
    obtain ⟨l1, h1⟩ := upsertStep_log S self curIP w z
    obtain ⟨l2, h2⟩ := upsertLoop_log S self curIP zs (self.upsertStep S curIP w z)
    exact ⟨l1 ++ l2, by rw [List.foldl_cons, h2, h1, List.append_assoc]⟩

/-- The final world of a run in which the IP changed and `getZonesAsync`
returned, field by field, in terms of the world `wl` left by the loop. -/
theorem main_changed_fields {σ : Type} (S : Soap σ) (config : Config) (curIP now : String)
    (w w1 w2 : World σ) (prev : PreviousRecord) (client : LiveDnsClient)
    (zones : List ZoneRecord)
    (hprev : getPreviousIPAsync now w = (.ok prev, w1)) (hne : prev.ip ≠ some curIP)
    (hz : (LiveDnsClient.new config.username config.password config.domain).getZonesAsync S
        { w1 with log := w1.log ++ [LogEntry.infoIpChanged prev.ip prev.updateTime curIP] }
      = (.ok zones, client, w2)) :
    (main S config curIP now w).1 = .ok () ∧
    (main S config curIP now w).2.calls
      = (((restoreRequiredHosts zones config.requiredHosts curIP).map fixHost).foldl
          (client.upsertStep S curIP) w2).calls ∧
    (main S config curIP now w).2.remote
      = (((restoreRequiredHosts zones config.requiredHosts curIP).map fixHost).foldl
          (client.upsertStep S curIP) w2).remote ∧
    (main S config curIP now w).2.stores = w.stores ++ [curIP] ∧
    (main S config curIP now w).2.file
      = (if w.writeFault = none then RecordFile.record (some curIP) now else w1.file) ∧
    ∃ l, (main S config curIP now w).2.log
      = w1.log ++ LogEntry.infoIpChanged prev.ip prev.updateTime curIP :: l := by
  rw [main_of_changed_ok S config curIP now w w1 w2 prev client zones hprev hne hz]
  obtain ⟨-, -, -, hfile, hstores, hwf, hlog, -⟩ := getZonesAsync_ok S _ _ _ _ _ hz
  obtain ⟨-, -, hs1, hwf1, -⟩ := getPreviousIPAsync_frame now w w1 prev hprev
  obtain ⟨lf, ls, lw, -⟩ := upsertLoop_frame S client curIP
    ((restoreRequiredHosts zones config.requiredHosts curIP).map fixHost) w2
  obtain ⟨ll, hll⟩ := upsertLoop_log S client curIP
    ((restoreRequiredHosts zones config.requiredHosts curIP).map fixHost) w2
  obtain ⟨sc, sr, ss, sf, sl, hsl⟩ := storeIPAsync_frame curIP now
    (((restoreRequiredHosts zones config.requiredHosts curIP).map fixHost).foldl
      (client.upsertStep S curIP) w2)
  simp only at hfile hstores hwf hlog
  refine ⟨rfl, ?_, ?_, ?_, ?_, ?_⟩
  · split_ifs <;> simp [sc]
  · split_ifs <;> simp [sr]
  · split_ifs <;> simp [ss, ls, hstores, hs1]
  · rw [lw, hwf, hwf1, lf, hfile] at sf
    split_ifs at sf ⊢ <;> simp [sf]
  · rw [hll, hlog] at hsl
    split_ifs
    · exact ⟨ll ++ sl, by simp [hsl]⟩
    · exact ⟨ll ++ sl ++ [LogEntry.warnFailedToStore], by simp [hsl]⟩

/-- C6. No-op run: when the record returned by `getPreviousIPAsync` has `ip`
equal to `curIP`, `main` completes, issues no provider call (no
`GetZoneRecords`, `DeleteARecord` or `NewARecord`: the call trace and the remote
state are as before), does not call `storeIPAsync`, and leaves the record file
as `getPreviousIPAsync` left it, so the persisted IP record is unchanged. -/
theorem main_noop {σ : Type} (S : Soap σ) (config : Config) (curIP now : String)
    (w w1 : World σ) (prev : PreviousRecord)
    (hprev : getPreviousIPAsync now w = (.ok prev, w1)) (heq : prev.ip = some curIP) :
    (main S config curIP now w).1 = .ok () ∧
    (main S config curIP now w).2.calls = w.calls ∧
    (main S config curIP now w).2.remote = w.remote ∧
    (main S config curIP now w).2.stores = w.stores ∧
    (main S config curIP now w).2.file = w1.file ∧
    (main S config curIP now w).2.persisted = w.persisted := by
  obtain ⟨hr, hc, hs, -, hp, -⟩ := getPreviousIPAsync_frame now w w1 prev hprev
  rw [main_of_same S config curIP now w w1 prev hprev heq]
  exact ⟨rfl, hc, hr, hs, rfl, hp⟩

/-- Witness of C6: `previous.ip = curIP = '3.3.3.3'`. -/
theorem main_noop_witness :
    getPreviousIPAsync "t1" (World.init 0 (.record (some "3.3.3.3") "t0"))
      = (.ok ⟨some "3.3.3.3", "t0"⟩, World.init 0 (.record (some "3.3.3.3") "t0")) ∧
    (main faultySoap sampleConfig "3.3.3.3" "t1"
        (World.init 0 (.record (some "3.3.3.3") "t0"))).1 = .ok () ∧
    (main faultySoap sampleConfig "3.3.3.3" "t1"
        (World.init 0 (.record (some "3.3.3.3") "t0"))).2.calls = [] ∧
    (main faultySoap sampleConfig "3.3.3.3" "t1"
        (World.init 0 (.record (some "3.3.3.3") "t0"))).2.remote = 0 ∧
    (main faultySoap sampleConfig "3.3.3.3" "t1"
        (World.init 0 (.record (some "3.3.3.3") "t0"))).2.stores = [] ∧
    (main faultySoap sampleConfig "3.3.3.3" "t1"
        (World.init 0 (.record (some "3.3.3.3") "t0"))).2.file
      = .record (some "3.3.3.3") "t0" ∧
    (main faultySoap sampleConfig "3.3.3.3" "t1"
        (World.init 0 (.record (some "3.3.3.3") "t0"))).2.persisted
      = some (some "3.3.3.3", "t0") :=
  ⟨rfl, main_noop faultySoap sampleConfig "3.3.3.3" "t1"
    (World.init 0 (.record (some "3.3.3.3") "t0"))
    (World.init 0 (.record (some "3.3.3.3") "t0")) ⟨some "3.3.3.3", "t0"⟩ rfl rfl⟩


/-- With a fresh client object whose creation succeeds, `getZonesAsync` makes
exactly one call, `GetZoneRecords`, whether that call raises or returns. -/
theorem getZonesAsync_calls {σ : Type} (S : Soap σ) (u p d : String) (w : World σ)
    (hC : (S.createClient w.remote).1 = .ok ()) :
    ((LiveDnsClient.new u p d).getZonesAsync S w).2.2.calls
      = w.calls ++ [Call.GetZoneRecords ⟨u, p, d⟩] := by
  rcases hc : S.createClient w.remote with ⟨ex | v, r⟩
  · rw [hc] at hC; cases hC
  · rcases hZ : S.GetZoneRecords ⟨u, p, d⟩ r with ⟨ex | raw, r2⟩ <;>
      simp [LiveDnsClient.getZonesAsync, LiveDnsClient.getLiveDnsClientAsync,
        LiveDnsClient.new, hc, hZ]

/-- What `getPreviousIPAsync` does when there is no usable record file. -/
theorem getPreviousIPAsync_sentinel {σ : Type} (now : String) (w : World σ)
    (hfile : w.file = .absent ∨ ((∃ ex, w.file = .unparseable ex) ∧ w.removeFault = none)) :
    ∃ w1, getPreviousIPAsync now w = (.ok ⟨some "127.0.0.1", now⟩, w1) := by
  unfold getPreviousIPAsync
  rcases hfile with h | ⟨⟨ex, h⟩, hr⟩
  · exact ⟨w, by simp [h]⟩
  · simp only [h, hr]
    exact ⟨_, rfl⟩

/-- C7, as the code has it.  When no prior state exists (the record file is
absent, or unparseable and removed) `getPreviousIPAsync` returns the sentinel
`{ip: '127.0.0.1'}`, and for every current IP string other than `'127.0.0.1'`
the change test of `main` is true (the `ip changed` line is the next log line)
and reconciliation is triggered (once the client is created, `GetZoneRecords`
is the next provider call). -/
theorem main_sentinel_triggers {σ : Type} (S : Soap σ) (config : Config) (curIP now : String)
    (w : World σ)
    (hfile : w.file = .absent ∨ ((∃ ex, w.file = .unparseable ex) ∧ w.removeFault = none))
    (hcur : curIP ≠ "127.0.0.1") :
    (getPreviousIPAsync now w).1 = .ok ⟨some "127.0.0.1", now⟩ ∧
    (∃ rest, (main S config curIP now w).2.log
      = (getPreviousIPAsync now w).2.log
          ++ LogEntry.infoIpChanged (some "127.0.0.1") now curIP :: rest) ∧
    ((S.createClient w.remote).1 = .ok () →
      ∃ rest, (main S config curIP now w).2.calls
        = w.calls ++ Call.GetZoneRecords ⟨config.username, config.password, config.domain⟩
            :: rest) := by
  obtain ⟨w1, hprev⟩ := getPreviousIPAsync_sentinel now w hfile
  have hne : (⟨some "127.0.0.1", now⟩ : PreviousRecord).ip ≠ some curIP := by
    intro h
    exact hcur (Option.some.inj h).symm
  obtain ⟨hr, hc, -⟩ := getPreviousIPAsync_frame now w w1 _ hprev
  rw [hprev]
  refine ⟨rfl, ?_, ?_⟩
  · rcases hz : (LiveDnsClient.new config.username config.password config.domain).getZonesAsync S
        { w1 with log := w1.log ++ [LogEntry.infoIpChanged (some "127.0.0.1") now curIP] }
      with ⟨ex | zones, client, w2⟩
    · rw [main_of_changed_error S config curIP now w w1 w2 _ client ex hprev hne hz]
      obtain ⟨-, -, hlog, -⟩ := getZonesAsync_error S _ _ _ _ _ hz
      exact ⟨[], by simp [hlog]⟩
    · exact (main_changed_fields S config curIP now w w1 w2 _ client zones hprev hne hz).2.2.2.2.2
  · intro hC
    have hcalls := getZonesAsync_calls S config.username config.password config.domain
      { w1 with log := w1.log ++ [LogEntry.infoIpChanged (some "127.0.0.1") now curIP] }
      (by simpa [hr] using hC)
    rcases hz : (LiveDnsClient.new config.username config.password config.domain).getZonesAsync S
        { w1 with log := w1.log ++ [LogEntry.infoIpChanged (some "127.0.0.1") now curIP] }
      with ⟨ex | zones, client, w2⟩
    · rw [main_of_changed_error S config curIP now w w1 w2 _ client ex hprev hne hz]
      rw [hz] at hcalls
      simp only [hc] at hcalls
      exact ⟨[], hcalls⟩
    · rw [(main_changed_fields S config curIP now w w1 w2 _ client zones hprev hne hz).2.1]
      rw [hz] at hcalls
      obtain ⟨news, hn, -⟩ := upsertLoop_calls S client curIP
        ((restoreRequiredHosts zones config.requiredHosts curIP).map fixHost) w2
      simp only [hc] at hcalls
      exact ⟨news, by rw [hn, hcalls, List.append_assoc, List.singleton_append]⟩

/-- Witness of the amended C7: no record file, current IP `2.2.2.2`. -/
theorem main_sentinel_triggers_witness :
    ((World.init ([] : List ARecord) .absent).file = .absent ∨
      ((∃ ex, (World.init ([] : List ARecord) .absent).file = .unparseable ex) ∧
        (World.init ([] : List ARecord) .absent).removeFault = none)) ∧
    "2.2.2.2" ≠ "127.0.0.1" ∧
    (getPreviousIPAsync "t1" (World.init ([] : List ARecord) .absent)).1
      = .ok ⟨some "127.0.0.1", "t1"⟩ ∧
    (∃ rest, (main (zoneSoap []) sampleConfig "2.2.2.2" "t1" (World.init [] .absent)).2.log
      = (getPreviousIPAsync "t1" (World.init ([] : List ARecord) .absent)).2.log
          ++ LogEntry.infoIpChanged (some "127.0.0.1") "t1" "2.2.2.2" :: rest) ∧
    (((zoneSoap []).createClient (World.init ([] : List ARecord) .absent).remote).1 = .ok () →
      ∃ rest, (main (zoneSoap []) sampleConfig "2.2.2.2" "t1" (World.init [] .absent)).2.calls
        = (World.init ([] : List ARecord) .absent).calls
          ++ Call.GetZoneRecords ⟨sampleConfig.username, sampleConfig.password, sampleConfig.domain⟩
            :: rest) :=
  ⟨Or.inl rfl, by decide,
    main_sentinel_triggers (zoneSoap []) sampleConfig "2.2.2.2" "t1" (World.init [] .absent)
      (Or.inl rfl) (by decide)⟩

/-- Counterexample to C7 as stated: with no record file and current IP
`'127.0.0.1'` the sentinel equals the current IP, the change test is false, and
the run logs `ip did not change` and makes no provider call. -/
theorem main_sentinel_loopback :
    (getPreviousIPAsync "t1" (World.init ([] : List ARecord) .absent)).1
      = .ok ⟨some "127.0.0.1", "t1"⟩ ∧
    (main (zoneSoap []) sampleConfig "127.0.0.1" "t1" (World.init [] .absent)).2.log
      = [LogEntry.infoIpDidNotChange "127.0.0.1"] ∧
    (main (zoneSoap []) sampleConfig "127.0.0.1" "t1" (World.init [] .absent)).2.calls = [] ∧
    (main (zoneSoap []) sampleConfig "127.0.0.1" "t1" (World.init [] .absent)).2.remote = [] :=
  ⟨rfl, by decide, by decide, by decide⟩


/-- C5, as the code has it.  In a run of `main` in which `curIP` differs from the
previous IP: when `getZonesAsync` raises, `main` raises, `storeIPAsync` is not
performed and the record file stays as `getPreviousIPAsync` left it; when
`getZonesAsync` returns, `main` completes and `storeIPAsync(curIP)` is performed
once after `upsertRecordsAsync` for every behaviour of `DeleteARecord` and
`NewARecord` (raising or refusing included), so the record file then holds
`curIP` unless the write itself raises. -/
theorem main_store {σ : Type} (S : Soap σ) (config : Config) (curIP now : String)
    (w w1 : World σ) (prev : PreviousRecord)
    (hprev : getPreviousIPAsync now w = (.ok prev, w1)) (hne : prev.ip ≠ some curIP) :
    (∀ ex client w2,
      (LiveDnsClient.new config.username config.password config.domain).getZonesAsync S
          { w1 with log := w1.log ++ [LogEntry.infoIpChanged prev.ip prev.updateTime curIP] }
        = (.error ex, client, w2) →
      (main S config curIP now w).1 = .error ex ∧
      (main S config curIP now w).2.stores = w.stores ∧
      (main S config curIP now w).2.file = w1.file) ∧
    (∀ zones client w2,
      (LiveDnsClient.new config.username config.password config.domain).getZonesAsync S
          { w1 with log := w1.log ++ [LogEntry.infoIpChanged prev.ip prev.updateTime curIP] }
        = (.ok zones, client, w2) →
      (main S config curIP now w).1 = .ok () ∧
      (main S config curIP now w).2.stores = w.stores ++ [curIP] ∧
      (main S config curIP now w).2.file
        = (if w.writeFault = none then RecordFile.record (some curIP) now else w1.file)) := by
  obtain ⟨-, -, hs, -⟩ := getPreviousIPAsync_frame now w w1 prev hprev
  constructor
  · intro ex client w2 hz
    obtain ⟨hfile, hstores, -⟩ := getZonesAsync_error S _ _ _ _ _ hz
    rw [main_of_changed_error S config curIP now w w1 w2 prev client ex hprev hne hz]
    exact ⟨rfl, hstores.trans hs, hfile⟩
  · intro zones client w2 hz
    obtain ⟨h1, -, -, h4, h5, -⟩ :=
      main_changed_fields S config curIP now w w1 w2 prev client zones hprev hne hz
    exact ⟨h1, h4, h5⟩

/-- Witness of the amended C5: the only required host is one whose delete raises,
and the new IP is stored all the same. -/
theorem main_store_witness :
    getPreviousIPAsync "t1" (World.init 0 (.record (some "1.1.1.1") "t0"))
      = (.ok ⟨some "1.1.1.1", "t0"⟩, World.init 0 (.record (some "1.1.1.1") "t0")) ∧
    (⟨some "1.1.1.1", "t0"⟩ : PreviousRecord).ip ≠ some "2.2.2.2" ∧
    (main faultySoap badConfig "2.2.2.2" "t1"
        (World.init 0 (.record (some "1.1.1.1") "t0"))).1 = .ok () ∧
    (main faultySoap badConfig "2.2.2.2" "t1"
        (World.init 0 (.record (some "1.1.1.1") "t0"))).2.stores
      = (World.init 0 (.record (some "1.1.1.1") "t0")).stores ++ ["2.2.2.2"] ∧
    (main faultySoap badConfig "2.2.2.2" "t1"
        (World.init 0 (.record (some "1.1.1.1") "t0"))).2.file
      = (if (World.init 0 (.record (some "1.1.1.1") "t0")).writeFault = none
          then RecordFile.record (some "2.2.2.2") "t1"
          else (World.init 0 (.record (some "1.1.1.1") "t0")).file) :=
  ⟨rfl, by decide,
    (main_store faultySoap badConfig "2.2.2.2" "t1"
      (World.init 0 (.record (some "1.1.1.1") "t0"))
      (World.init 0 (.record (some "1.1.1.1") "t0")) ⟨some "1.1.1.1", "t0"⟩ rfl
      (by decide)).2 [] { sampleClient with client := true }
      { World.init 1 (.record (some "1.1.1.1") "t0") with
        calls := [Call.GetZoneRecords sampleClient.cred],
        log := [LogEntry.infoIpChanged (some "1.1.1.1") "t0" "2.2.2.2"] } rfl⟩

/-- Counterexample to C5 as stated: the stored IP was `1.1.1.1`, the current one
is `2.2.2.2`, and the `DeleteARecord` call of the only record raises (so no
`NewARecord` is issued and the host is not updated); `storeIPAsync('2.2.2.2')`
is performed and the record file now holds `2.2.2.2`. -/
theorem failed_upsert_still_stores :
    (main faultySoap badConfig "2.2.2.2" "t1"
        (World.init 0 (.record (some "1.1.1.1") "t0"))).2.calls
      = [Call.GetZoneRecords sampleClient.cred, Call.DeleteARecord "bad" sampleClient.cred] ∧
    LogEntry.errorFailedUpdate "delete fault" ∈
      (main faultySoap badConfig "2.2.2.2" "t1"
        (World.init 0 (.record (some "1.1.1.1") "t0"))).2.log ∧
    (main faultySoap badConfig "2.2.2.2" "t1"
        (World.init 0 (.record (some "1.1.1.1") "t0"))).2.stores = ["2.2.2.2"] ∧
    (main faultySoap badConfig "2.2.2.2" "t1"
        (World.init 0 (.record (some "1.1.1.1") "t0"))).2.file
      = .record (some "2.2.2.2") "t1" ∧
    (main faultySoap badConfig "2.2.2.2" "t1"
        (World.init 0 (.record (some "1.1.1.1") "t0"))).2.file
      ≠ (World.init 0 (.record (some "1.1.1.1") "t0")).file := by
  decide


/-- The trace and the remote state after `getPreviousIPAsync`, raised or not. -/
theorem getPreviousIPAsync_calls {σ : Type} (now : String) (w : World σ) :
    (getPreviousIPAsync now w).2.calls = w.calls ∧
    (getPreviousIPAsync now w).2.remote = w.remote := by
  unfold getPreviousIPAsync
  rcases hf : w.file with _ | ex | ⟨ip, t⟩
  · exact ⟨rfl, rfl⟩
  · rcases hr : w.removeFault with _ | ex2 <;> simp [hr]
  · exact ⟨rfl, rfl⟩

/-- The remote state in which a fresh client object issues its first call. -/
theorem getLiveDnsClientAsync_new_remote {σ : Type} (S : Soap σ) (u p d : String)
    (w : World σ) :
    ((LiveDnsClient.new u p d).getLiveDnsClientAsync S w).2.2.remote
      = (S.createClient w.remote).2 := by
  rcases hc : S.createClient w.remote with ⟨ex | v, r⟩ <;>
    simp [LiveDnsClient.getLiveDnsClientAsync, LiveDnsClient.new, hc]

/-- C8, as the code has it.  The records left alone are those of type
`Name Server (NS)`: every `DeleteARecord` or `NewARecord` call issued by `main`
names the `fixHost`-normalised host of a record of the `GetZoneRecords` answer
whose type is not `Name Server (NS)` (an A record or a record of any other
type), or the normalised name of a required host. -/
theorem main_calls_hosts {σ : Type} (S : Soap σ) (config : Config) (curIP now : String)
    (w : World σ) :
    ∃ news, (main S config curIP now w).2.calls = w.calls ++ news ∧
      ∀ c ∈ news, ∀ h, c.hostName = some h →
        ∃ raw, (S.GetZoneRecords ⟨config.username, config.password, config.domain⟩
            (S.createClient w.remote).2).1 = .ok raw ∧
          ((∃ x ∈ raw, x.Typ ≠ "Name Server (NS)" ∧
              (fixHost ⟨x.Host, x.Typ, x.Data, x.TTL⟩).host = h) ∨
            (∃ r ∈ config.requiredHosts, (fixHost ⟨r, "Host (A)", curIP, 14400⟩).host = h)) := by
  obtain ⟨hpc, hpr⟩ := getPreviousIPAsync_calls now w
  rcases hprev : getPreviousIPAsync now w with ⟨ex | prev, w1⟩
  · refine ⟨[], ?_, by simp⟩
    rw [hprev] at hpc
    simp only [main, hprev, List.append_nil]
    exact hpc
  · rw [hprev] at hpc hpr
    simp only at hpc hpr
    by_cases heq : prev.ip = some curIP
    · refine ⟨[], ?_, by simp⟩
      rw [main_of_same S config curIP now w w1 prev hprev heq]
      simpa using hpc
    · rcases hz : (LiveDnsClient.new config.username config.password config.domain).getZonesAsync
          S { w1 with log := w1.log ++ [LogEntry.infoIpChanged prev.ip prev.updateTime curIP] }
        with ⟨ex | zones, client, w2⟩
      · obtain ⟨-, -, -, news, hn, hnone⟩ := getZonesAsync_error S _ _ _ _ _ hz
        refine ⟨news, ?_, ?_⟩
        · rw [main_of_changed_error S config curIP now w w1 w2 prev client ex hprev heq hz, hn]
          simp only [hpc]
        · intro c hc h hh
          rw [hnone c hc] at hh
          cases hh
      · obtain ⟨-, hcred, hcalls, -, -, -, -, raw, hraw, hzones⟩ :=
          getZonesAsync_ok S _ _ _ _ _ hz
        rw [getLiveDnsClientAsync_new_remote] at hraw
        simp only [hpr, hpc] at hraw hcalls
        obtain ⟨news, hn, -, hmem⟩ := upsertLoop_calls S client curIP
          ((restoreRequiredHosts zones config.requiredHosts curIP).map fixHost) w2
        refine ⟨Call.GetZoneRecords
          (LiveDnsClient.new config.username config.password config.domain).cred :: news, ?_, ?_⟩
        · rw [(main_changed_fields S config curIP now w w1 w2 prev client zones hprev heq
            hz).2.1, hn, hcalls, List.append_assoc, List.singleton_append]
        · intro c hc h hh
          rcases List.mem_cons.mp hc with rfl | hc
          · cases hh
          · obtain ⟨z, hz', hcz⟩ := hmem c hc
            have hzh : z.host = h := by
              simp only [callPair, List.mem_cons, List.mem_singleton, List.not_mem_nil,
                or_false] at hcz
              rcases hcz with rfl | rfl <;> simpa [Call.hostName] using hh
            refine ⟨raw, hraw, ?_⟩
            obtain ⟨z0, hz0, rfl⟩ := List.mem_map.mp hz'
            rw [restoreRequiredHosts_eq, List.mem_append] at hz0
            rcases hz0 with hz0 | hz0
            · left
              rw [hzones] at hz0
              obtain ⟨x, hx, rfl⟩ := List.mem_map.mp hz0
              rw [List.mem_filter] at hx
              exact ⟨x, hx.1, by simpa using hx.2, hzh⟩
            · right
              obtain ⟨r, hr, rfl⟩ := List.mem_map.mp hz0
              exact ⟨r, (List.mem_filter.mp hr).1, hzh⟩

/-- Counterexample to C8 as stated: the zone answer holds one `Mail (MX)` record
for `mail.krapivin.co.il.` and no A record, and no host is required; the
snapshot returned by `getZonesAsync` keeps the record, and `main` issues
`DeleteARecord` and `NewARecord` for host `mail`. -/
theorem main_touches_mx_host :
    (sampleClient.getZonesAsync (zoneSoap mxAnswer) (World.init [] .absent)).1
      = .ok [⟨"mail.krapivin.co.il.", "Mail (MX)", "10 mx.krapivin.co.il.", 3600⟩] ∧
    (main (zoneSoap mxAnswer) emptyConfig "2.2.2.2" "t1" (World.init [] .absent)).2.calls
      = [Call.GetZoneRecords sampleClient.cred, Call.DeleteARecord "mail" sampleClient.cred,
         Call.NewARecord "2.2.2.2" 3600 "mail" sampleClient.cred] ∧
    ¬ namesOnlyAHosts [⟨"mail.krapivin.co.il.", "Mail (MX)", "10 mx.krapivin.co.il.", 3600⟩]
        emptyConfig.requiredHosts
        (main (zoneSoap mxAnswer) emptyConfig "2.2.2.2" "t1" (World.init [] .absent)).2.calls := by
  refine ⟨rfl, by decide, ?_⟩
  intro H
  have h := H (Call.DeleteARecord "mail" sampleClient.cred) (by decide) "mail" rfl
  revert h
  decide


/-! ## Convergence on a zone of A records -/

/-- One delete-and-create on the zone of `zoneSoap`. -/
theorem upsertStep_zoneSoap_remote (snapshot : List RawRecord) (self : LiveDnsClient)
    (curIP : String) (w : World (List ARecord)) (zone : ZoneRecord) :
    (self.upsertStep (zoneSoap snapshot) curIP w zone).remote
      = w.remote.filter (fun r => r.host != zone.host)
          ++ [{ host := zone.host, data := curIP, ttl := zone.ttl }] := by
  simp [LiveDnsClient.upsertStep, LiveDnsClient.upsertTry, zoneSoap]

theorem upsertLoop_zoneSoap_remote (snapshot : List RawRecord) (self : LiveDnsClient)
    (curIP : String) :
    ∀ (zones : List ZoneRecord) (w : World (List ARecord)),
      (zones.foldl (self.upsertStep (zoneSoap snapshot) curIP) w).remote
        = zones.foldl (fun (z : List ARecord) (zone : ZoneRecord) =>
            z.filter (fun r => r.host != zone.host)
              ++ [{ host := zone.host, data := curIP, ttl := zone.ttl }]) w.remote
  | [], _ => rfl
  | z :: zs, w => by
    rw [List.foldl_cons, List.foldl_cons, upsertLoop_zoneSoap_remote snapshot self curIP zs,
      upsertStep_zoneSoap_remote]

/-- After deleting and creating along a working list, a host of the list has
exactly one A record, and it points at `curIP`. -/
theorem zoneFold_filter (curIP h : String) (zones : List ZoneRecord) :
    ∀ z0 : List ARecord, (∃ r ∈ zones, r.host = h) →
      ∃ ttl, (zones.foldl (fun (z : List ARecord) (zone : ZoneRecord) =>
            z.filter (fun r => r.host != zone.host)
              ++ [{ host := zone.host, data := curIP, ttl := zone.ttl }]) z0).filter
          (fun r => r.host == h)
        = [{ host := h, data := curIP, ttl := ttl }] := by
  induction zones using List.reverseRecOn with
  | nil =>
    rintro z0 ⟨r, hr, -⟩
    cases hr
  | append_singleton zs zone ih =>
    intro z0 hex
    rw [List.foldl_append, List.foldl_cons, List.foldl_nil, List.filter_append,
      List.filter_filter]
    by_cases hzh : zone.host = h
    · refine ⟨zone.ttl, ?_⟩
      subst hzh
      have hnil : ∀ l : List ARecord,
          l.filter (fun r => (r.host == zone.host && r.host != zone.host)) = [] := by
        intro l
        rw [List.filter_eq_nil_iff]
        intro a _
        by_cases ha : a.host = zone.host <;> simp [ha]
      rw [hnil]
      simp
    · have hex' : ∃ r ∈ zs, r.host = h := by
        obtain ⟨r, hr, hrh⟩ := hex
        rcases List.mem_append.mp hr with hr | hr
        · exact ⟨r, hr, hrh⟩
        · rw [List.mem_singleton] at hr
          subst hr
          exact absurd hrh hzh
      obtain ⟨ttl, hih⟩ := ih z0 hex'
      refine ⟨ttl, ?_⟩
      have hsame : ∀ l : List ARecord,
          l.filter (fun r => (r.host == h && r.host != zone.host))
            = l.filter (fun r => r.host == h) := by
        intro l
        apply List.filter_congr
        intro a _
        by_cases ha : a.host = h
        · have : a.host ≠ zone.host := fun e => hzh (e.symm.trans ha)
          simp [ha, this, Ne.symm hzh]
        · simp [ha]
      rw [hsame, hih]
      simp [hzh]

/-- C1. Convergence of a successful run.  The provider is `zoneSoap`: a zone of
A records keyed by short host name, where `DeleteARecord(host)` removes every A
record of the host, `NewARecord(host, ip, ttl)` adds one record and answers `1`,
and no call raises.  For every zone answer, every initial zone, every `curIP`
different from the previous IP and every list of required hosts none of which
contains `krapivin.co.il`, `main` completes and afterwards the provider zone
holds, for each required host, exactly one A record, whose data is `curIP`. -/
theorem main_converges (snapshot : List RawRecord) (config : Config) (curIP now : String)
    (w w1 : World (List ARecord)) (prev : PreviousRecord)
    (hprev : getPreviousIPAsync now w = (.ok prev, w1)) (hne : prev.ip ≠ some curIP)
    (hshort : ∀ h ∈ config.requiredHosts, jsIncludes h "krapivin.co.il" = false) :
    (main (zoneSoap snapshot) config curIP now w).1 = .ok () ∧
    ∀ h ∈ config.requiredHosts, ∃ ttl,
      (main (zoneSoap snapshot) config curIP now w).2.remote.filter (fun r => r.host == h)
        = [{ host := h, data := curIP, ttl := ttl }] := by
  rcases hz : (LiveDnsClient.new config.username config.password config.domain).getZonesAsync
      (zoneSoap snapshot)
      { w1 with log := w1.log ++ [LogEntry.infoIpChanged prev.ip prev.updateTime curIP] }
    with ⟨ex | zones, client, w2⟩
  · simp [LiveDnsClient.getZonesAsync, LiveDnsClient.getLiveDnsClientAsync, LiveDnsClient.new,
      zoneSoap] at hz
  · obtain ⟨hok, -, hrem, -⟩ :=
      main_changed_fields (zoneSoap snapshot) config curIP now w w1 w2 prev client zones
        hprev hne hz
    refine ⟨hok, ?_⟩
    intro h hh
    rw [hrem, upsertLoop_zoneSoap_remote]
    apply zoneFold_filter
    obtain ⟨z, hz0, hzh⟩ := restoreRequiredHosts_covers zones config.requiredHosts curIP h hh
    refine ⟨fixHost z, List.mem_map_of_mem fixHost hz0, ?_⟩
    obtain ⟨zh, zt, zd, zttl⟩ := z
    simp only at hzh
    subst hzh
    rw [fixHost_short zh zt zd zttl (hshort zh hh)]

/-- Witness of C1: required hosts `['', 'vpn']`, the zone holding a stale record
for `vpn` returned under its fully qualified name, and no stored IP. -/
theorem main_converges_witness :
    getPreviousIPAsync "t1" (World.init ([⟨"vpn", "1.1.1.1", 3600⟩] : List ARecord) .absent)
      = (.ok ⟨some "127.0.0.1", "t1"⟩, World.init ([⟨"vpn", "1.1.1.1", 3600⟩] : List ARecord) .absent) ∧
    (⟨some "127.0.0.1", "t1"⟩ : PreviousRecord).ip ≠ some "2.2.2.2" ∧
    (∀ h ∈ sampleConfig.requiredHosts, jsIncludes h "krapivin.co.il" = false) ∧
    (main (zoneSoap [⟨"vpn.krapivin.co.il.", "Host (A)", "1.1.1.1", 3600⟩]) sampleConfig
        "2.2.2.2" "t1" (World.init ([⟨"vpn", "1.1.1.1", 3600⟩] : List ARecord) .absent)).1 = .ok () ∧
    ∀ h ∈ sampleConfig.requiredHosts, ∃ ttl,
      (main (zoneSoap [⟨"vpn.krapivin.co.il.", "Host (A)", "1.1.1.1", 3600⟩]) sampleConfig
        "2.2.2.2" "t1" (World.init ([⟨"vpn", "1.1.1.1", 3600⟩] : List ARecord) .absent)).2.remote.filter
          (fun r => r.host == h)
        = [{ host := h, data := "2.2.2.2", ttl := ttl }] :=
  ⟨rfl, by decide, by decide,
    main_converges [⟨"vpn.krapivin.co.il.", "Host (A)", "1.1.1.1", 3600⟩] sampleConfig
      "2.2.2.2" "t1" (World.init ([⟨"vpn", "1.1.1.1", 3600⟩] : List ARecord) .absent)
      (World.init ([⟨"vpn", "1.1.1.1", 3600⟩] : List ARecord) .absent) ⟨some "127.0.0.1", "t1"⟩ rfl
      (by decide) (by decide)⟩

/-- C10 at a failing input.  The zone answer holds `www.krapivin.co.il.` and
`www` is required.  `restoreRequiredHosts` runs before `fixHost`, so the
comparison is between `www` and the fully qualified name: a placeholder is
pushed, the working list holds two records with host `www` where the answer
has one record normalising to `www`, the host is deleted and created twice, and
its TTL ends as the default 14400 instead of 3600.  `fixHost` also strips the
literal `krapivin.co.il` and not the configured domain: a name under
`example.com` is left as it is. -/
theorem main_duplicates_qualified_host :
    (restoreRequiredHosts [⟨"www.krapivin.co.il.", "Host (A)", "1.1.1.1", 3600⟩] ["www"]
        "2.2.2.2").map fixHost
      = ([⟨"www", "Host (A)", "1.1.1.1", 3600⟩, ⟨"www", "Host (A)", "2.2.2.2", 14400⟩] :
          List ZoneRecord) ∧
    (main (zoneSoap wwwAnswer) wwwConfig "2.2.2.2" "t1"
        (World.init [⟨"www", "1.1.1.1", 3600⟩] .absent)).2.calls
      = [Call.GetZoneRecords sampleClient.cred,
         Call.DeleteARecord "www" sampleClient.cred,
         Call.NewARecord "2.2.2.2" 3600 "www" sampleClient.cred,
         Call.DeleteARecord "www" sampleClient.cred,
         Call.NewARecord "2.2.2.2" 14400 "www" sampleClient.cred] ∧
    (main (zoneSoap wwwAnswer) wwwConfig "2.2.2.2" "t1"
        (World.init [⟨"www", "1.1.1.1", 3600⟩] .absent)).2.remote
      = [⟨"www", "2.2.2.2", 14400⟩] ∧
    (fixHost ⟨"www.example.com.", "Host (A)", "1.1.1.1", 3600⟩).host = "www.example.com." := by
  decide


end LiveDns
